import Mathlib

/-!
Shallow embedding of the github-pm Engineering Signal Analytics Engine:
the conventional-commit classifier (`commit_analyzer.py`), the workflow
status classifier and flow-health analyzer (`status_analyzer.py`), the
milestone velocity predictor (`workflows/planning/roadmap_generator.py`)
and the period comparator (`workflows/trend_analysis/compare_periods.py`),
together with proofs of the specification claims.

Python strings are modelled as `List Char`; numeric results that Python
computes with float arithmetic are modelled over `ℚ`; fallible results
are `Option`s.
-/

namespace GithubPM

/-- ASCII whitespace, as recognised by the regex class `\s` and by
`str.strip()` (the exotic Unicode whitespace characters are not used by
any input considered here). -/
def isWS (c : Char) : Bool :=
  c == ' ' || c == '\t' || c == '\n' || c == '\r' || c == '\x0b' || c == '\x0c'

/-- Python slice `message.split("\n")[0]`: everything before the first
newline. -/
def firstLine (msg : List Char) : List Char := msg.takeWhile (fun c => c != '\n')

/-- Python `str.strip()`: drop whitespace from both ends. -/
def pyStrip (l : List Char) : List Char :=
  ((l.dropWhile isWS).reverse.dropWhile isWS).reverse

/-- The 11 conventional-commit types, in the order of the regex alternation
`feat|fix|docs|style|refactor|perf|test|chore|ci|build|revert`
(`CommitAnalyzer.CONVENTIONAL_COMMIT_PATTERN`). -/
def CC_TYPES : List (List Char) :=
  ["feat", "fix", "docs", "style", "refactor", "perf", "test", "chore", "ci",
   "build", "revert"].map String.data

/-- First alternative of the type alternation that is a literal prefix of the
line.  No two of the 11 type literals can prefix the same line, so the
alternation order is immaterial; the regex engine's left-to-right order is
kept anyway. -/
def ccFindType : List (List Char) → List Char → Option (List Char × List Char)
  | [], _ => none
  | t :: ts, line =>
    if t.isPrefixOf line then some (t, line.drop t.length) else ccFindType ts line

/-- Regex fragment `(?:\((?P<scope>[^)]+)\))?`: an optional parenthesised,
non-empty scope that cannot contain a closing parenthesis.  When the group
cannot match (no opening paren, empty scope, or unclosed paren) the engine
proceeds without consuming anything, exactly as the optional group does. -/
def ccScope (r : List Char) : Option (List Char) × List Char :=
  match r with
  | c :: rest =>
    if c = '(' then
      let s := rest.takeWhile (fun x => x != ')')
      if s.isEmpty then (none, r)
      else
        match rest.drop s.length with
        | y :: r2 => if y = ')' then (some s, r2) else (none, r)
        | [] => (none, r)
    else (none, r)
  | [] => (none, [])

/-- Regex fragment `:\s*(?P<description>.+)$`: mandatory colon, then the
description group.  The greedy `\s*` takes the maximal whitespace run; when
that would leave nothing for the mandatory `.+` the engine backtracks one
character, so a non-empty all-blank remainder yields a one-character
description group. -/
def ccColonDesc (scope : Option (List Char)) (breaking : Bool) (r2 : List Char) :
    Option (Option (List Char) × Bool × List Char) :=
  match r2 with
  | c :: rest =>
    if c = ':' then
      if rest.isEmpty then none
      else
        let ds := rest.dropWhile isWS
        some (scope, breaking, if ds.isEmpty then rest.drop (rest.length - 1) else ds)
    else none
  | [] => none

/-- Regex fragment `(?P<breaking>!)?` followed by the colon and description.
When a leading `!` is consumed and the rest fails, the backtracking attempt
without the optional group needs a colon where the `!` stands, which fails
as well, so consuming an available `!` is exhaustive. -/
def ccBang (scope : Option (List Char)) (r1 : List Char) :
    Option (Option (List Char) × Bool × List Char) :=
  match r1 with
  | c :: t =>
    if c = '!' then ccColonDesc scope true t else ccColonDesc scope false (c :: t)
  | [] => ccColonDesc scope false []

/-- Everything after the type group: optional scope, optional bang, colon,
description. -/
def ccAfterType (r : List Char) : Option (Option (List Char) × Bool × List Char) :=
  let (scope, r1) := ccScope r
  ccBang scope r1

/-- Full match of `CONVENTIONAL_COMMIT_PATTERN` against one line, returning
the captured (type, scope, breaking, description) groups. -/
def ccMatch (line : List Char) :
    Option (List Char × Option (List Char) × Bool × List Char) :=
  match ccFindType CC_TYPES line with
  | none => none
  | some (t, r) =>
    match ccAfterType r with
    | none => none
    | some (sc, br, d) => some (t, sc, br, d)

/-- Parsed conventional commit (`parse_conventional_commit`'s result dict). -/
structure ConvCommit where
  type : List Char
  scope : Option (List Char)
  breaking : Bool
  description : List Char
  raw : List Char
deriving DecidableEq, Repr

/-- Embeds `CommitAnalyzer.parse_conventional_commit`: take the first line,
strip it, match the pattern; on success the description group is stripped
and `raw` is the (stripped) first line. -/
def parse_conventional_commit (msg : List Char) : Option ConvCommit :=
  let fl := pyStrip (firstLine msg)
  match ccMatch fl with
  | none => none
  | some (t, sc, br, d) => some ⟨t, sc, br, pyStrip d, fl⟩

/-- Helper for the specification grammar: a colon followed by a non-empty
description remainder. -/
def specColonDesc (r : List Char) : Bool :=
  match r with
  | c :: rest => c == ':' && !rest.isEmpty
  | [] => false

/-- Helper for the specification grammar: optional `!` immediately before the
colon. -/
def specBangColon (r : List Char) : Bool :=
  specColonDesc r ||
    (match r with
     | c :: r2 => c == '!' && specColonDesc r2
     | [] => false)

/-- Helper for the specification grammar: optional `(scope)` (non-empty text
inside parentheses) before the optional bang and the colon. -/
def specScopeRest (r : List Char) : Bool :=
  specBangColon r ||
    (match r with
     | c :: rest =>
       c == '(' &&
         (let s := rest.takeWhile (fun x => x != ')')
          !s.isEmpty &&
            (match rest.drop s.length with
             | y :: r2 => y == ')' && specBangColon r2
             | [] => false))
     | [] => false)

/-- Modelled from the spec: the grammar `type[(scope)][!]: description` where
`type` is drawn from the fixed 11-member set, `scope` is any text inside
parentheses (optional), `!` immediately before the colon is optional, and the
description is the non-empty remainder after the colon. -/
def specGrammarMatch (line : List Char) : Bool :=
  CC_TYPES.any (fun t => t.isPrefixOf line && specScopeRest (line.drop t.length))

/-- Convert a digit run to the integer that Python `int()` returns on it. -/
def digitsToNat (ds : List Char) : ℕ :=
  ds.foldl (fun n c => 10 * n + (c.toNat - 48)) 0

/-- Expanded alternatives of the optional closing-verb group
`(?:fixes?|closes?|resolves?|refs?|see)?` of `ISSUE_PATTERN`, in the order
the regex engine tries them (each greedy `s?` first with, then without,
its final `s`). -/
def VERB_ALTS : List (List Char) :=
  ["fixes", "fixe", "closes", "close", "resolves", "resolve", "refs", "ref",
   "see"].map String.data

/-- Case-insensitive literal prefix test (the pattern carries
`re.IGNORECASE`); the alternatives are written in lower case. -/
def isPrefixCI : List Char → List Char → Bool
  | [], _ => true
  | _ :: _, [] => false
  | v :: vs, c :: cs => (c.toLower == v) && isPrefixCI vs cs

/-- Regex fragment `\s*#(\d+)`: skip whitespace, require a hash and a
non-empty greedy digit run; returns the digit group and the input after the
match.  (Backtracking `\s*` cannot help: a shorter whitespace run leaves a
whitespace character where `#` is required.) -/
def hashDigits (t : List Char) : Option (List Char × List Char) :=
  match t.dropWhile isWS with
  | c :: r =>
    if c = '#' then
      if (r.takeWhile Char.isDigit).isEmpty then none
      else some (r.takeWhile Char.isDigit, r.drop (r.takeWhile Char.isDigit).length)
    else none
  | [] => none

/-- Try the verb alternatives in order, falling back to the empty optional
verb, and complete the match with `hashDigits`. -/
def tryVerbs : List (List Char) → List Char → Option (List Char × List Char)
  | [], s => hashDigits s
  | v :: vs, s =>
    if isPrefixCI v s then
      match hashDigits (s.drop v.length) with
      | some res => some res
      | none => tryVerbs vs s
    else tryVerbs vs s

/-- Whether `ISSUE_PATTERN` matches starting exactly at the head of `s`,
returning the captured digit group and the rest of the input. -/
def issueMatchHere (s : List Char) : Option (List Char × List Char) :=
  tryVerbs VERB_ALTS s

/-- Fuel-indexed scan implementing `re.findall` for `ISSUE_PATTERN`: find the
leftmost match, emit its digit group, resume after the match.  Every match
consumes at least one character, so `msg.length` fuel always suffices. -/
def issueFindallAux : ℕ → List Char → List ℕ
  | 0, _ => []
  | _, [] => []
  | fuel + 1, c :: rest =>
    match issueMatchHere (c :: rest) with
    | some (ds, after) => digitsToNat ds :: issueFindallAux fuel after
    | none => issueFindallAux fuel rest

/-- Embeds `CommitAnalyzer.extract_issue_references`:
`[int(num) for num in ISSUE_PATTERN.findall(message)]`. -/
def extract_issue_references (msg : List Char) : List ℕ :=
  issueFindallAux msg.length msg

/-- Fuel-indexed form of the specification's description: walk the whole
message and, at every `#` that is immediately followed by digits, emit the
integer value of the maximal digit run, then continue after it. -/
def specRefsAux : ℕ → List Char → List ℕ
  | 0, _ => []
  | _, [] => []
  | fuel + 1, c :: rest =>
    if c = '#' then
      let ds := rest.takeWhile Char.isDigit
      if ds.isEmpty then specRefsAux fuel rest
      else digitsToNat ds :: specRefsAux fuel (rest.drop ds.length)
    else specRefsAux fuel rest

/-- Modelled from the spec: the integers of all `#<digits>` occurrences
anywhere in the message, in order of appearance, duplicates preserved, with
no verb required. -/
def specIssueRefs (msg : List Char) : List ℕ :=
  specRefsAux msg.length msg

/-- Aggregate of `CommitAnalyzer.analyze_commits` restricted to the fields
the claims are about (total, conventional count, conventional percentage);
the histograms, breaking-change list and per-commit records are not
modelled. -/
structure CommitAggregate where
  total_commits : ℕ
  conventional_commits : ℕ
  conventional_percentage : ℚ
deriving DecidableEq, Repr

/-- Embeds `CommitAnalyzer.analyze_commits` on the list of commit messages:
the loop increments `conventional_commits` once per commit whose message
parses as a conventional commit, and the percentage is
`conventional_commits / total_commits * 100` when the total is positive,
else `0`. -/
def analyze_commits (messages : List (List Char)) : CommitAggregate :=
  let total := messages.length
  let conv := (messages.filter (fun m => (parse_conventional_commit m).isSome)).length
  { total_commits := total
    conventional_commits := conv
    conventional_percentage :=
      if total > 0 then (conv : ℚ) / (total : ℚ) * 100 else 0 }

/-- Ordered pattern table `StatusAnalyzer.STATUS_PATTERNS` (a Python dict;
iteration follows insertion order). -/
def STATUS_PATTERNS : List (String × List String) :=
  [("backlog", ["backlog", "status:backlog", "status: backlog"]),
   ("ready", ["ready", "status:ready", "status: ready", "to do", "todo"]),
   ("in_progress",
     ["in progress", "status:in progress", "status: in progress", "in-progress",
      "status:in-progress", "wip", "work in progress"]),
   ("in_review",
     ["in review", "status:in review", "status: in review", "review",
      "status:review"]),
   ("done", ["done", "status:done", "status: done", "completed"])]

/-- Python `str.lower()` (ASCII; none of the pattern literals or inputs here
use non-ASCII letters), written over the character list so it reduces. -/
def pyLower (s : String) : String := ⟨s.data.map Char.toLower⟩

/-- An issue as the status analyzer reads it: `issue.get("state", "UNKNOWN")`
and the `"name"` entries of `issue.get("labels", [])` (a label dict without a
name contributes `""`). -/
structure Issue where
  state : String
  labels : List String
deriving DecidableEq, Repr

/-- Embeds `StatusAnalyzer.extract_status`: lower-case the label names, return
the key of the first pattern group one of whose variants is among them, and
otherwise fall back on the state (`done` if CLOSED, else `backlog`). -/
def extract_status (issue : Issue) : String :=
  let label_names := issue.labels.map pyLower
  match STATUS_PATTERNS.find? (fun sp => sp.2.any (fun p => label_names.contains p)) with
  | some sp => sp.1
  | none => if issue.state = "CLOSED" then "done" else "backlog"

/-- Per-issue branch of the loop in
`StatusAnalyzer.analyze_status_distribution`: a CLOSED issue is assigned
`done` outright; any other issue goes through `extract_status`. -/
def distribStatus (issue : Issue) : String :=
  if issue.state = "CLOSED" then "done" else extract_status issue

/-- Counts built by `StatusAnalyzer.analyze_status_distribution` (the
`Counter` modelled extensionally: the number of issues assigned each
status). -/
def analyze_status_distribution_counts (issues : List Issue) (status : String) : ℕ :=
  (issues.filter (fun i => distribStatus i == status)).length

/-- Modelled from the spec: for an open issue, scan the pattern groups in the
fixed order backlog, ready, in_progress, in_review, done and return the first
group one of whose literal variants equals a lower-cased label name of the
issue; when no group matches, default to backlog. -/
def spec_classify_open (labels : List String) : String :=
  match STATUS_PATTERNS.find?
      (fun sp => sp.2.any (fun p => (labels.map pyLower).contains p)) with
  | some sp => sp.1
  | none => "backlog"

/-- Python `dict.get(key, 0)` over the association-list model of a counter
dict. -/
def getCount (d : List (String × ℕ)) (key : String) : ℕ := (d.lookup key).getD 0

/-- Bottleneck record appended by `StatusAnalyzer.analyze_flow_health`. -/
structure Bottleneck where
  btype : String
  severity : String
  message : String
deriving DecidableEq, Repr

/-- Result of `StatusAnalyzer.analyze_flow_health`; `flow_counts` is the
`flow_ratio` dict `(ready, in_progress, in_review)`. -/
structure FlowHealth where
  wip_total : ℕ
  wip_health : String
  bottlenecks : List Bottleneck
  recommendations : List String
  flow_counts : ℕ × ℕ × ℕ
deriving DecidableEq, Repr

/-- Embeds `StatusAnalyzer.analyze_flow_health` acting on the `counts` dict of
a status distribution, modelled as an association list so that
`counts.get(k, 0)` is `(counts.lookup k).getD 0`.  The four rules fire in
source order, each appending one bottleneck and one recommendation, then the
WIP recommendation is appended when `wip_total` exceeds the ideal WIP of 3. -/
def analyze_flow_health (counts : List (String × ℕ)) : FlowHealth :=
  let ready := getCount counts "ready"
  let in_progress := getCount counts "in_progress"
  let in_review := getCount counts "in_review"
  let backlog := getCount counts "backlog"
  let b1 : List Bottleneck :=
    if ready > in_progress * 3 ∧ ready > 5 then
      [⟨"ready_pileup", "high",
        toString ready ++ " issues \x27Ready\x27 but only " ++
          toString in_progress ++ " \x27In Progress\x27"⟩]
    else []
  let r1 : List String :=
    if ready > in_progress * 3 ∧ ready > 5 then
      ["Pick up more \x27Ready\x27 work - you have " ++ toString ready ++
        " groomed issues waiting"]
    else []
  let b2 : List Bottleneck :=
    if in_progress > 5 ∧ in_review = 0 then
      [⟨"no_reviews", "medium",
        toString in_progress ++ " issues \x27In Progress\x27 but none \x27In Review\x27"⟩]
    else []
  let r2 : List String :=
    if in_progress > 5 ∧ in_review = 0 then
      ["No issues in review - remember to create PRs when work is done"]
    else []
  let b3 : List Bottleneck :=
    if in_review > 5 then
      [⟨"review_bottleneck", "high",
        toString in_review ++ " issues stuck \x27In Review\x27"⟩]
    else []
  let r3 : List String :=
    if in_review > 5 then
      ["Review bottleneck - prioritize reviewing the " ++ toString in_review ++
        " pending PRs"]
    else []
  let b4 : List Bottleneck :=
    if backlog > ready * 5 ∧ ready < 3 then
      [⟨"grooming_needed", "medium",
        toString backlog ++ " issues in \x27Backlog\x27 but only " ++
          toString ready ++ " \x27Ready\x27"⟩]
    else []
  let r4 : List String :=
    if backlog > ready * 5 ∧ ready < 3 then
      ["Need grooming session - move backlog issues to \x27Ready\x27"]
    else []
  let wip_total := in_progress + in_review
  let wip_health := if wip_total ≤ 3 then "healthy" else "overloaded"
  let rw : List String :=
    if wip_total > 3 then
      ["WIP too high (" ++ toString wip_total ++
        " items) - focus on finishing before starting new work"]
    else []
  { wip_total := wip_total
    wip_health := wip_health
    bottlenecks := b1 ++ b2 ++ b3 ++ b4
    recommendations := r1 ++ r2 ++ r3 ++ r4 ++ rw
    flow_counts := (ready, in_progress, in_review) }

/-- Python `round(x, 2)`: round half to even on the value scaled by 100. -/
def pyRound2 (q : ℚ) : ℚ :=
  let x := q * 100
  let fl : ℤ := ⌊x⌋
  let frac := x - fl
  ((if frac > 1/2 then fl + 1
    else if frac < 1/2 then fl
    else if fl % 2 = 0 then fl else fl + 1 : ℤ) : ℚ) / 100

/-- Change record of the comparator dimensions without a significance flag
(`_compare_states`, `_compare_labels`). -/
structure ChangeRec where
  baseline : ℕ
  current : ℕ
  change : ℤ
  percent_change : ℚ
deriving DecidableEq, Repr

/-- Result of `PeriodComparator._compare_overall`. -/
structure OverallChange where
  baseline_total : ℕ
  current_total : ℕ
  absolute_change : ℤ
  percent_change : ℚ
  is_significant : Bool
deriving DecidableEq, Repr

/-- Per-repository change record (`_compare_repositories` adds the
significance flag). -/
structure RepoChangeRec where
  baseline : ℕ
  current : ℕ
  change : ℤ
  percent_change : ℚ
  is_significant : Bool
deriving DecidableEq, Repr

/-- Embeds `PeriodComparator._compare_overall`; `threshold` is the
comparator's `significant_change_threshold` (default 0.20).  The zero-baseline
branch reports a percent change of 0, and the significance test uses the
unrounded percentage. -/
def compare_overall (threshold : ℚ) (baseline_total current_total : ℕ) :
    OverallChange :=
  let change : ℤ := (current_total : ℤ) - (baseline_total : ℤ)
  let pct : ℚ :=
    if baseline_total > 0 then (change : ℚ) / (baseline_total : ℚ) * 100 else 0
  { baseline_total := baseline_total
    current_total := current_total
    absolute_change := change
    percent_change := pyRound2 pct
    is_significant := decide (threshold ≤ |pct / 100|) }

/-- Loop body of `PeriodComparator._compare_states` for one state key (the
zero-baseline branch reports 0). -/
def stateChangeRec (baseline current : List (String × ℕ)) (state : String) :
    ChangeRec :=
  let b := getCount baseline state
  let c := getCount current state
  let change : ℤ := (c : ℤ) - (b : ℤ)
  { baseline := b
    current := c
    change := change
    percent_change := pyRound2 (if b > 0 then (change : ℚ) / (b : ℚ) * 100 else 0) }

/-- Loop body of `PeriodComparator._compare_repositories` for one repository
key (the zero-baseline branch reports 0; the significance test uses the
unrounded percentage). -/
def repoChangeRec (threshold : ℚ) (baseline current : List (String × ℕ))
    (repo : String) : RepoChangeRec :=
  let b := getCount baseline repo
  let c := getCount current repo
  let change : ℤ := (c : ℤ) - (b : ℤ)
  let pct : ℚ := if b > 0 then (change : ℚ) / (b : ℚ) * 100 else 0
  { baseline := b
    current := c
    change := change
    percent_change := pyRound2 pct
    is_significant := decide (threshold ≤ |pct / 100|) }

/-- Loop body of `PeriodComparator._compare_labels` for one label key: the
zero-baseline branch reports `100.0`, unlike every other dimension. -/
def labelChangeRec (baseline current : List (String × ℕ)) (label : String) :
    ChangeRec :=
  let b := getCount baseline label
  let c := getCount current label
  let change : ℤ := (c : ℤ) - (b : ℤ)
  { baseline := b
    current := c
    change := change
    percent_change := pyRound2 (if b > 0 then (change : ℚ) / (b : ℚ) * 100 else 100) }

/-- Embeds `PeriodComparator._compare_labels`: one record per label of the
current snapshot (in iteration order), kept when `baseline > 0` or
`current ≥ 3`, then stably sorted by descending absolute change (Python
`sorted(..., reverse=True)` is stable). -/
def compare_labels (baseline current : List (String × ℕ)) :
    List (String × ChangeRec) :=
  let kept := ((current.map Prod.fst).map
      (fun l => (l, labelChangeRec baseline current l))).filter
    (fun lr => lr.2.baseline > 0 || lr.2.current ≥ 3)
  kept.mergeSort (fun a b => |a.2.change| ≥ |b.2.change|)

/-- Milestone record as fetched from the API (`open_issues` and
`closed_issues` are counts, hence naturals; `due_on` may be absent). -/
structure Milestone where
  title : String
  state : String
  due_on : Option String
  open_issues : ℕ
  closed_issues : ℕ
deriving DecidableEq, Repr

/-- Velocity snapshot; `issues_per_week` is the only field
`analyze_milestone` uses. -/
structure Velocity where
  issues_per_week : ℚ
deriving DecidableEq, Repr

/-- Result of `RoadmapGenerator.analyze_milestone`.  Instants are rationals
measured in days; `weeks_remaining` is the local variable of the source,
exposed as a field so the statements can speak about it. -/
structure MilestoneAnalysis where
  total_issues : ℕ
  completed : ℕ
  remaining : ℕ
  progress : ℚ
  weeks_remaining : ℚ
  predicted_completion : ℚ
  due_date : Option ℚ
  days_until_due : Option ℤ
  predicted_days_remaining : ℤ
  health : String
deriving DecidableEq, Repr

/-- Embeds `RoadmapGenerator.analyze_milestone`.  `fromiso` models
`datetime.fromisoformat` applied to the Z-normalised `due_on` string,
returning the instant in days, or `none` when the call raises the
`ValueError`/`AttributeError` that the `except` clause swallows (leaving
`due_date` and `days_until_due` unset).  `now` is the instant of computation;
`timedelta.days` is the floor of a difference in days.  Python truthiness of
`milestone.get("due_on")` makes an empty string skip parsing entirely. -/
def analyze_milestone (fromiso : String → Option ℚ) (now : ℚ)
    (velocity : Velocity) (m : Milestone) : MilestoneAnalysis :=
  let total_issues := m.open_issues + m.closed_issues
  let completed := m.closed_issues
  let remaining := m.open_issues
  let progress : ℚ :=
    if total_issues > 0 then (completed : ℚ) / (total_issues : ℚ) * 100 else 0
  let issues_per_week := max velocity.issues_per_week (1/2)
  let weeks_remaining : ℚ :=
    if issues_per_week > 0 then (remaining : ℚ) / issues_per_week else 0
  let predicted_completion := now + weeks_remaining * 7
  let parsed : Option ℚ :=
    match m.due_on with
    | some s => if s.isEmpty then none else fromiso s
    | none => none
  let health :=
    match parsed with
    | some d =>
      let predicted_days : ℤ := ⌊predicted_completion - now⌋
      let dud : ℤ := ⌊d - now⌋
      if m.state = "closed" then "completed"
      else if dud < 0 then "overdue"
      else if (predicted_days : ℚ) > (dud : ℚ) * (3/2) then "at_risk"
      else if (predicted_days : ℚ) > (dud : ℚ) * (6/5) then "behind"
      else if progress > 80 then "on_track"
      else "good"
    | none =>
      if m.state = "closed" then "completed"
      else if remaining = 0 then "ready_to_close"
      else "no_deadline"
  { total_issues := total_issues
    completed := completed
    remaining := remaining
    progress := progress
    weeks_remaining := weeks_remaining
    predicted_completion := predicted_completion
    due_date := parsed
    days_until_due := parsed.map (fun d => ⌊d - now⌋)
    predicted_days_remaining := ⌊predicted_completion - now⌋
    health := health }

/-- C1: evaluation of the status classifier at the failing input.  A CLOSED
issue labeled "wip" is classified `in_progress` by `extract_status` — the
label pattern table is consulted before the CLOSED state, which only acts as
a fallback — and a CLOSED issue labeled "status:ready" is classified
`ready`.  Only the batch loop of `analyze_status_distribution` maps every
CLOSED issue to `done` unconditionally. -/
theorem c1_closed_label_divergence :
    extract_status ⟨"CLOSED", ["wip"]⟩ = "in_progress" ∧
      extract_status ⟨"CLOSED", ["status:ready"]⟩ = "ready" ∧
      distribStatus ⟨"CLOSED", ["wip"]⟩ = "done" ∧
      distribStatus ⟨"CLOSED", ["status:ready"]⟩ = "done" := by
  refine ⟨?_, ?_, ?_, ?_⟩ <;> decide

/-- C3 counterexample: a milestone whose `due_on` is present but unparseable
gets health `no_deadline`, not `unknown` (the parse failure leaves the due
date unset and the milestone flows into the no-due-date branch). -/
theorem c3_parse_failure_counterexample :
    (analyze_milestone (fun _ => none) 0 ⟨1⟩
        ⟨"M", "open", some "not-a-date", 1, 0⟩).health = "no_deadline" ∧
      ("no_deadline" : String) ≠ "unknown" := by
  exact ⟨rfl, by decide⟩

/-- C3 amended: when `due_on` is present, non-empty and fails to parse,
`analyze_milestone` raises no fault (it is a total function) and assigns the
no-due-date tiers: `completed` when the milestone is closed, `ready_to_close`
when no issue remains, otherwise `no_deadline`; the health is never
`unknown`, and `due_date` stays unset. -/
theorem c3_parse_failure_amended (fromiso : String → Option ℚ) (now : ℚ)
    (v : Velocity) (m : Milestone) (s : String) (hdue : m.due_on = some s)
    (hne : s.isEmpty = false) (hfail : fromiso s = none) :
    (analyze_milestone fromiso now v m).health =
        (if m.state = "closed" then "completed"
         else if m.open_issues = 0 then "ready_to_close" else "no_deadline") ∧
      (analyze_milestone fromiso now v m).health ≠ "unknown" ∧
      (analyze_milestone fromiso now v m).due_date = none := by
  have hparsed :
      (match m.due_on with
        | some s => if s.isEmpty then none else fromiso s
        | none => none) = (none : Option ℚ) := by
    rw [hdue]
    simp [hne, hfail]
  refine ⟨?_, ?_, ?_⟩
  · simp only [analyze_milestone, hparsed]
  · simp only [analyze_milestone, hparsed]
    split_ifs <;> decide
  · simp only [analyze_milestone, hparsed]

/-- C3 witness for the amended statement, at a concrete open milestone with
one remaining issue and an unparseable due date. -/
theorem c3_parse_failure_witness :
    (Milestone.mk "M" "open" (some "not-a-date") 1 0).due_on = some "not-a-date" ∧
      ("not-a-date" : String).isEmpty = false ∧
      ((analyze_milestone (fun _ => none) 0 ⟨1⟩
            ⟨"M", "open", some "not-a-date", 1, 0⟩).health =
          (if ("open" : String) = "closed" then "completed"
           else if (1 : ℕ) = 0 then "ready_to_close" else "no_deadline") ∧
        (analyze_milestone (fun _ => none) 0 ⟨1⟩
            ⟨"M", "open", some "not-a-date", 1, 0⟩).health ≠ "unknown" ∧
        (analyze_milestone (fun _ => none) 0 ⟨1⟩
            ⟨"M", "open", some "not-a-date", 1, 0⟩).due_date = none) :=
  ⟨rfl, rfl,
    c3_parse_failure_amended (fun _ => none) 0 ⟨1⟩
      ⟨"M", "open", some "not-a-date", 1, 0⟩ "not-a-date" rfl rfl rfl⟩

/-- C5: for every issue whose state is not CLOSED, `extract_status` agrees
with the specification's scan: the pattern groups are tried in the fixed
order backlog, ready, in_progress, in_review, done; the first group one of
whose literal variants equals a lower-cased label name wins, and the default
is backlog. -/
theorem c5_open_first_match (issue : Issue) (h : issue.state ≠ "CLOSED") :
    extract_status issue = spec_classify_open issue.labels := by
  simp only [extract_status, spec_classify_open]
  cases hfind : STATUS_PATTERNS.find?
      (fun sp => sp.2.any (fun p => (issue.labels.map pyLower).contains p)) with
  | none => simp [hfind, h]
  | some sp => simp [hfind]

/-- C5 witness: an open issue labeled both "ready" and "wip" resolves to
ready (the ready group is scanned before the in_progress group). -/
theorem c5_open_first_match_witness :
    (Issue.mk "OPEN" ["ready", "wip"]).state ≠ "CLOSED" ∧
      extract_status ⟨"OPEN", ["ready", "wip"]⟩ = spec_classify_open ["ready", "wip"] ∧
      spec_classify_open ["ready", "wip"] = "ready" :=
  ⟨by decide, c5_open_first_match ⟨"OPEN", ["ready", "wip"]⟩ (by decide), by decide⟩

/-- C7: the velocity floor.  The clamped issues-per-week is positive, so the
division-by-zero branch of `weeks_remaining` is unreachable and
`weeks_remaining = remaining / max(issues_per_week, 0.5)`; and since
`remaining ≥ 0`, the predicted completion is never earlier than the time of
computation. -/
theorem c7_velocity_floor (fromiso : String → Option ℚ) (now : ℚ)
    (v : Velocity) (m : Milestone) :
    (0 : ℚ) < max v.issues_per_week (1/2) ∧
      (analyze_milestone fromiso now v m).weeks_remaining =
        (m.open_issues : ℚ) / max v.issues_per_week (1/2) ∧
      now ≤ (analyze_milestone fromiso now v m).predicted_completion := by
  have hpos : (0 : ℚ) < max v.issues_per_week (1/2) :=
    lt_of_lt_of_le (by norm_num) (le_max_right _ _)
  refine ⟨hpos, ?_, ?_⟩
  · simp only [analyze_milestone, if_pos hpos]
  · simp only [analyze_milestone, if_pos hpos]
    have hw : (0 : ℚ) ≤ (m.open_issues : ℚ) / max v.issues_per_week (1/2) :=
      div_nonneg (Nat.cast_nonneg _) (le_of_lt hpos)
    nlinarith

/-- C8: for every list of commit messages, the aggregate satisfies
`conventional_commits ≤ total_commits`, and the conventional percentage is
exactly `100 * conventional / total`, with value 0 when the total is 0. -/
theorem c8_aggregate_invariant (messages : List (List Char)) :
    (analyze_commits messages).conventional_commits ≤
        (analyze_commits messages).total_commits ∧
      (analyze_commits messages).conventional_percentage =
        (if (analyze_commits messages).total_commits = 0 then 0
         else 100 * ((analyze_commits messages).conventional_commits : ℚ) /
           ((analyze_commits messages).total_commits : ℚ)) := by
  constructor
  · exact List.length_filter_le _ _
  · rcases Nat.eq_zero_or_pos messages.length with h | h
    · simp [analyze_commits, h]
    · have h0 : messages.length ≠ 0 := Nat.pos_iff_ne_zero.mp h
      simp only [analyze_commits, if_pos h, if_neg h0]
      ring

/-- C10: `analyze_flow_health` is total over partial count maps: any of the
four keys that is absent counts as 0, so the result only depends on the four
defaulted lookups; and the empty map yields wip_total 0, healthy WIP, and
empty bottleneck and recommendation lists. -/
theorem c10_partial_map_total (counts : List (String × ℕ)) :
    analyze_flow_health counts =
        analyze_flow_health
          [("ready", getCount counts "ready"),
           ("in_progress", getCount counts "in_progress"),
           ("in_review", getCount counts "in_review"),
           ("backlog", getCount counts "backlog")] ∧
      analyze_flow_health [] =
        { wip_total := 0, wip_health := "healthy", bottlenecks := [],
          recommendations := [], flow_counts := (0, 0, 0) } := by
  exact ⟨rfl, by decide⟩

/-- Helper: Python round-to-2 fixes 0. -/
theorem pyRound2_zero : pyRound2 0 = 0 := by
  norm_num [pyRound2]

/-- Helper: Python round-to-2 fixes 100. -/
theorem pyRound2_hundred : pyRound2 100 = 100 := by
  norm_num [pyRound2]

/-- Helper: the label record for label "bug" against empty baseline. -/
theorem labelChangeRec_bug :
    labelChangeRec [] [("bug", 5)] "bug" =
      { baseline := 0, current := 5, change := 5, percent_change := 100 } := by
  have hb : getCount ([] : List (String × ℕ)) "bug" = 0 := rfl
  have hc : getCount [("bug", 5)] "bug" = 5 := rfl
  simp [labelChangeRec, hb, hc, pyRound2_hundred]

/-- C2 counterexample: in the per-label dimension a zero baseline reports a
percent change of 100.0, not 0: comparing a by_label map {} against
{bug: 5}. -/
theorem c2_label_zero_baseline_counterexample :
    (labelChangeRec [] [("bug", 5)] "bug").percent_change = 100 ∧
      compare_labels [] [("bug", 5)] =
        [("bug", { baseline := 0, current := 5, change := 5, percent_change := 100 })] ∧
      (100 : ℚ) ≠ 0 := by
  refine ⟨by rw [labelChangeRec_bug], ?_, by norm_num⟩
  simp [compare_labels, labelChangeRec_bug]

/-- C2 amended: with a zero baseline count, the overall, per-state and
per-repository dimensions report a percent change of 0 while the per-label
dimension reports 100.0; the absolute change is current minus baseline in
every dimension; and comparing baseline_total 0 against current_total 5 at
the default threshold 0.20 yields percent_change 0, absolute_change 5 and
is_significant false. -/
theorem c2_zero_baseline_amended (threshold : ℚ) (n : ℕ)
    (baseline current : List (String × ℕ)) (key : String)
    (hb : getCount baseline key = 0) :
    (compare_overall threshold 0 n).percent_change = 0 ∧
      (compare_overall threshold 0 n).absolute_change = (n : ℤ) ∧
      (stateChangeRec baseline current key).percent_change = 0 ∧
      (stateChangeRec baseline current key).change =
        ((getCount current key : ℤ) - (getCount baseline key : ℤ)) ∧
      (repoChangeRec threshold baseline current key).percent_change = 0 ∧
      (labelChangeRec baseline current key).percent_change = 100 ∧
      (compare_overall (1/5) 0 5).is_significant = false := by
  refine ⟨?_, by simp [compare_overall], ?_, by simp [stateChangeRec], ?_, ?_, ?_⟩
  · simp [compare_overall, pyRound2_zero]
  · simp [stateChangeRec, hb, pyRound2_zero]
  · simp [repoChangeRec, hb, pyRound2_zero]
  · simp [labelChangeRec, hb, pyRound2_hundred]
  · simp only [compare_overall]
    norm_num

/-- C2 witness for the amended statement, at baseline maps that are empty
(hence every baseline count is 0), current label count 5 and the default
threshold 0.20. -/
theorem c2_zero_baseline_witness :
    getCount [] "bug" = 0 ∧
      ((compare_overall (1/5) 0 5).percent_change = 0 ∧
        (compare_overall (1/5) 0 5).absolute_change = ((5 : ℕ) : ℤ) ∧
        (stateChangeRec [] [("bug", 5)] "bug").percent_change = 0 ∧
        (stateChangeRec [] [("bug", 5)] "bug").change =
          ((getCount [("bug", 5)] "bug" : ℤ) - (getCount [] "bug" : ℤ)) ∧
        (repoChangeRec (1/5) [] [("bug", 5)] "bug").percent_change = 0 ∧
        (labelChangeRec [] [("bug", 5)] "bug").percent_change = 100 ∧
        (compare_overall (1/5) 0 5).is_significant = false) :=
  ⟨rfl, c2_zero_baseline_amended (1/5) 5 [] [("bug", 5)] "bug" rfl⟩

/-- C6: the flow-health rule engine fires `ready_pileup` iff
ready > in_progress × 3 and ready > 5, `no_reviews` iff in_progress > 5 and
in_review = 0, `review_bottleneck` iff in_review > 5, `grooming_needed` iff
backlog > ready × 5 and ready < 3; bottlenecks and recommendations are
emitted in that fixed order with the WIP recommendation last;
wip_total = in_progress + in_review and wip_health is healthy iff
wip_total ≤ 3, else overloaded. -/
theorem c6_flow_rule_engine (counts : List (String × ℕ)) :
    (analyze_flow_health counts).bottlenecks.map Bottleneck.btype =
        ((if getCount counts "ready" > getCount counts "in_progress" * 3 ∧
              getCount counts "ready" > 5 then ["ready_pileup"] else []) ++
          (if getCount counts "in_progress" > 5 ∧ getCount counts "in_review" = 0
            then ["no_reviews"] else []) ++
          (if getCount counts "in_review" > 5 then ["review_bottleneck"] else []) ++
          (if getCount counts "backlog" > getCount counts "ready" * 5 ∧
              getCount counts "ready" < 3 then ["grooming_needed"] else [])) ∧
      (analyze_flow_health counts).recommendations =
        ((if getCount counts "ready" > getCount counts "in_progress" * 3 ∧
              getCount counts "ready" > 5 then
            ["Pick up more \x27Ready\x27 work - you have " ++
              toString (getCount counts "ready") ++ " groomed issues waiting"]
          else []) ++
          (if getCount counts "in_progress" > 5 ∧ getCount counts "in_review" = 0 then
            ["No issues in review - remember to create PRs when work is done"]
          else []) ++
          (if getCount counts "in_review" > 5 then
            ["Review bottleneck - prioritize reviewing the " ++
              toString (getCount counts "in_review") ++ " pending PRs"]
          else []) ++
          (if getCount counts "backlog" > getCount counts "ready" * 5 ∧
              getCount counts "ready" < 3 then
            ["Need grooming session - move backlog issues to \x27Ready\x27"]
          else []) ++
          (if getCount counts "in_progress" + getCount counts "in_review" > 3 then
            ["WIP too high (" ++
              toString (getCount counts "in_progress" + getCount counts "in_review") ++
              " items) - focus on finishing before starting new work"]
          else [])) ∧
      (analyze_flow_health counts).wip_total =
        getCount counts "in_progress" + getCount counts "in_review" ∧
      (analyze_flow_health counts).wip_health =
        (if getCount counts "in_progress" + getCount counts "in_review" ≤ 3
          then "healthy" else "overloaded") := by
  refine ⟨?_, rfl, rfl, rfl⟩
  simp only [analyze_flow_health]
  split_ifs <;> rfl

/-- Helper: the colon-description fragment succeeds exactly when the
specification grammar's colon-plus-non-empty-description does. -/
theorem ccColonDesc_isSome (sc : Option (List Char)) (br : Bool) (r2 : List Char) :
    (ccColonDesc sc br r2).isSome = specColonDesc r2 := by
  cases r2 with
  | nil => rfl
  | cons c rest =>
    by_cases hc : c = ':'
    · subst hc
      by_cases hr : rest.isEmpty <;> simp [ccColonDesc, specColonDesc, hr]
    · simp [ccColonDesc, specColonDesc, hc]

/-- Helper: the optional-bang fragment succeeds exactly when the
specification grammar's optional-bang clause does. -/
theorem ccBang_isSome (sc : Option (List Char)) (r1 : List Char) :
    (ccBang sc r1).isSome = specBangColon r1 := by
  cases r1 with
  | nil => rfl
  | cons c t =>
    by_cases hc : c = '!'
    · subst hc
      simp [ccBang, ccColonDesc_isSome, specBangColon, specColonDesc]
    · simp [ccBang, hc, ccColonDesc_isSome, specBangColon, specColonDesc]

/-- Helper: the scope-bang-colon-description matcher succeeds exactly when
the specification grammar's clause after the type does. -/
theorem ccAfterType_isSome (r : List Char) :
    (ccAfterType r).isSome = specScopeRest r := by
  cases r with
  | nil =>
    show (ccBang none []).isSome = specScopeRest []
    rw [ccBang_isSome]
    simp [specScopeRest]
  | cons c rest =>
    by_cases hc : c = '('
    · subst hc
      by_cases hs : (rest.takeWhile (fun x => x != ')')).isEmpty
      · have h1 : ccScope ('(' :: rest) = (none, '(' :: rest) := by
          simp [ccScope, hs]
        simp only [ccAfterType, h1, ccBang_isSome]
        simp [specScopeRest, specBangColon, specColonDesc, hs]
      · cases hdrop : rest.drop (rest.takeWhile (fun x => x != ')')).length with
        | nil =>
          have h1 : ccScope ('(' :: rest) = (none, '(' :: rest) := by
            simp [ccScope, hs, hdrop]
          simp only [ccAfterType, h1, ccBang_isSome]
          simp [specScopeRest, specBangColon, specColonDesc, hs, hdrop]
        | cons y r2 =>
          by_cases hy : y = ')'
          · subst hy
            have h1 : ccScope ('(' :: rest) =
                (some (rest.takeWhile (fun x => x != ')')), r2) := by
              simp [ccScope, hs, hdrop]
            simp only [ccAfterType, h1, ccBang_isSome]
            simp [specScopeRest, specBangColon, specColonDesc, hs, hdrop]
          · have h1 : ccScope ('(' :: rest) = (none, '(' :: rest) := by
              simp [ccScope, hs, hdrop, hy]
            simp only [ccAfterType, h1, ccBang_isSome]
            simp [specScopeRest, specBangColon, specColonDesc, hs, hdrop, hy]
    · have h1 : ccScope (c :: rest) = (none, c :: rest) := by
        simp [ccScope, hc]
      simp only [ccAfterType, h1, ccBang_isSome]
      simp [specScopeRest, hc]

/-- Helper: a successful type lookup returns a member of the alternation list
that literally prefixes the line, together with the remainder. -/
theorem ccFindType_some_mem {ts : List (List Char)} {line t r : List Char}
    (h : ccFindType ts line = some (t, r)) :
    t ∈ ts ∧ t.isPrefixOf line = true ∧ r = line.drop t.length := by
  induction ts with
  | nil => simp [ccFindType] at h
  | cons a as ih =>
    unfold ccFindType at h
    by_cases ha : a.isPrefixOf line = true
    · rw [if_pos ha] at h
      injection h with h
      injection h with h1 h2
      subst h1; subst h2
      exact ⟨List.mem_cons_self a as, ha, rfl⟩
    · rw [if_neg ha] at h
      obtain ⟨hm, hp, hr⟩ := ih h
      exact ⟨List.mem_cons_of_mem a hm, hp, hr⟩

/-- Helper: when some alternative prefixes the line the type lookup
succeeds. -/
theorem ccFindType_isSome_of_exists {ts : List (List Char)} {line : List Char}
    (h : ∃ t ∈ ts, t.isPrefixOf line = true) :
    (ccFindType ts line).isSome = true := by
  induction ts with
  | nil => simp at h
  | cons a as ih =>
    unfold ccFindType
    by_cases ha : a.isPrefixOf line = true
    · simp [ha]
    · rw [if_neg ha]
      apply ih
      rcases h with ⟨t, hm, hp⟩
      rcases List.mem_cons.mp hm with h | h
      · exact absurd (h ▸ hp) ha
      · exact ⟨t, h, hp⟩

/-- Helper: no conventional-commit type literal is a prefix of a different
one. -/
theorem ccTypes_prefix_unique :
    ∀ t1 ∈ CC_TYPES, ∀ t2 ∈ CC_TYPES, t1.isPrefixOf t2 = true → t1 = t2 := by
  decide

/-- Helper: two type literals prefixing the same line coincide. -/
theorem ccTypes_prefix_eq {t1 t2 line : List Char} (h1 : t1 ∈ CC_TYPES)
    (h2 : t2 ∈ CC_TYPES) (p1 : t1.isPrefixOf line = true)
    (p2 : t2.isPrefixOf line = true) : t1 = t2 := by
  rw [List.isPrefixOf_iff_prefix] at p1 p2
  rcases List.prefix_or_prefix_of_prefix p1 p2 with h | h
  · exact ccTypes_prefix_unique t1 h1 t2 h2 (List.isPrefixOf_iff_prefix.mpr h)
  · exact (ccTypes_prefix_unique t2 h2 t1 h1 (List.isPrefixOf_iff_prefix.mpr h)).symm

/-- C4 counterexample: the grammar matches the first line "feat: x " (type
feat, description "x "), yet the parsed record's `raw` is the stripped
"feat: x", not the original first line; and the first line "feat:   "
matches the grammar while the parser returns none (stripping removes the
all-blank description before matching). -/
theorem c4_raw_counterexample :
    specGrammarMatch (firstLine "feat: x ".data) = true ∧
      parse_conventional_commit "feat: x ".data =
        some ⟨"feat".data, none, false, "x".data, "feat: x".data⟩ ∧
      "feat: x".data ≠ firstLine "feat: x ".data ∧
      specGrammarMatch (firstLine "feat:   ".data) = true ∧
      parse_conventional_commit "feat:   ".data = none := by
  refine ⟨by decide, by decide, by decide, by decide, by decide⟩

/-- C4 amended: for every commit message whose first line, after stripping
surrounding whitespace, matches the grammar `type[(scope)][!]: description`,
the parser returns a record whose type is one of the 11 enumerated values and
whose `raw` equals that stripped first line (rather than the original first
line, from which it differs exactly when the original carries surrounding
whitespace). -/
theorem c4_conventional_sound (msg : List Char)
    (h : specGrammarMatch (pyStrip (firstLine msg)) = true) :
    ∃ rec : ConvCommit, parse_conventional_commit msg = some rec ∧
      rec.type ∈ CC_TYPES ∧ rec.raw = pyStrip (firstLine msg) := by
  have hex : ∃ t ∈ CC_TYPES,
      t.isPrefixOf (pyStrip (firstLine msg)) = true ∧
        specScopeRest ((pyStrip (firstLine msg)).drop t.length) = true := by
    unfold specGrammarMatch at h
    rcases List.any_eq_true.mp h with ⟨t, hm, hp⟩
    exact ⟨t, hm, Bool.and_eq_true_iff.mp hp⟩
  rcases hex with ⟨t, hmem, hpre, hrest⟩
  have hfs : (ccFindType CC_TYPES (pyStrip (firstLine msg))).isSome = true :=
    ccFindType_isSome_of_exists ⟨t, hmem, hpre⟩
  rcases Option.isSome_iff_exists.mp hfs with ⟨⟨t', r'⟩, hft⟩
  obtain ⟨hmem', hpre', hr'⟩ := ccFindType_some_mem hft
  have hteq : t' = t := ccTypes_prefix_eq hmem' hmem hpre' hpre
  have hafter : (ccAfterType r').isSome = true := by
    rw [ccAfterType_isSome, hr', hteq]
    exact hrest
  rcases Option.isSome_iff_exists.mp hafter with ⟨⟨sc, br, d⟩, hat⟩
  refine ⟨⟨t', sc, br, pyStrip d, pyStrip (firstLine msg)⟩, ?_, hteq ▸ hmem, rfl⟩
  simp only [parse_conventional_commit, ccMatch, hft, hat]

/-- C4 witness for the amended statement, at a message whose stripped first
line matches the grammar. -/
theorem c4_conventional_sound_witness :
    specGrammarMatch (pyStrip (firstLine "feat(auth)!: add OAuth support".data)) = true ∧
      ∃ rec : ConvCommit,
        parse_conventional_commit "feat(auth)!: add OAuth support".data = some rec ∧
          rec.type ∈ CC_TYPES ∧
          rec.raw = pyStrip (firstLine "feat(auth)!: add OAuth support".data) :=
  ⟨by decide, c4_conventional_sound "feat(auth)!: add OAuth support".data (by decide)⟩

/-- Helper: a successful `\s*#(\d+)` match decomposes its input into a
hash-free whitespace run, the hash, and the digit group. -/
theorem hashDigits_some {t ds a : List Char}
    (h : hashDigits t = some (ds, a)) :
    ∃ w r, t = w ++ '#' :: r ∧ (∀ c ∈ w, c ≠ '#') ∧
      ds = r.takeWhile Char.isDigit ∧ ds ≠ [] ∧ a = r.drop ds.length := by
  unfold hashDigits at h
  cases hd : t.dropWhile isWS with
  | nil => rw [hd] at h; exact absurd h (by simp)
  | cons c r =>
    rw [hd] at h
    simp only [] at h
    by_cases hc : c = '#'
    · subst hc
      rw [if_pos rfl] at h
      by_cases hds : (r.takeWhile Char.isDigit).isEmpty
      · rw [if_pos hds] at h; exact absurd h (by simp)
      · rw [if_neg hds] at h
        injection h with h
        injection h with h1 h2
        refine ⟨t.takeWhile isWS, r, ?_, ?_, h1.symm, ?_, ?_⟩
        · rw [← hd, List.takeWhile_append_dropWhile]
        · intro x hx hxeq
          have hws : isWS x = true := List.mem_takeWhile_imp hx
          rw [hxeq] at hws
          exact absurd hws (by decide)
        · rw [← h1]
          intro hempty
          exact hds (by simp [← h1, hempty])
        · rw [← h2, ← h1]
    · rw [if_neg hc] at h; exact absurd h (by simp)

/-- Helper: a case-insensitive prefix consists of characters whose lower
case is listed in the verb. -/
theorem isPrefixCI_mem_take {v s : List Char} (h : isPrefixCI v s = true) :
    ∀ c ∈ s.take v.length, c.toLower ∈ v := by
  induction v generalizing s with
  | nil => simp
  | cons cv vs ih =>
    cases s with
    | nil => simp [isPrefixCI] at h
    | cons c cs =>
      unfold isPrefixCI at h
      rcases Bool.and_eq_true_iff.mp h with ⟨h1, h2⟩
      intro x hx
      rw [List.length_cons, List.take_succ_cons] at hx
      rcases List.mem_cons.mp hx with rfl | hx
      · exact (beq_iff_eq.mp h1) ▸ List.mem_cons_self _ _
      · exact List.mem_cons_of_mem _ (ih h2 x hx)

/-- Helper: none of the verb alternatives contains a hash character. -/
theorem verbAlts_no_hash : ∀ v ∈ VERB_ALTS, ('#' : Char) ∉ v := by decide

/-- Helper: a successful match of the issue pattern at the head of the input
decomposes it into a hash-free prefix (optional verb and whitespace), the
hash, and the digit group. -/
theorem tryVerbs_some {vs : List (List Char)} {s ds a : List Char}
    (hv : ∀ v ∈ vs, ('#' : Char) ∉ v)
    (h : tryVerbs vs s = some (ds, a)) :
    ∃ skip r, s = skip ++ '#' :: r ∧ (∀ c ∈ skip, c ≠ '#') ∧
      ds = r.takeWhile Char.isDigit ∧ ds ≠ [] ∧ a = r.drop ds.length := by
  induction vs with
  | nil => exact hashDigits_some h
  | cons v vs ih =>
    unfold tryVerbs at h
    by_cases hp : isPrefixCI v s = true
    · rw [if_pos hp] at h
      cases hh : hashDigits (s.drop v.length) with
      | some res =>
        rw [hh] at h
        injection h with h
        subst h
        obtain ⟨w, r, ht, hw, hds, hne, ha⟩ := hashDigits_some hh
        refine ⟨s.take v.length ++ w, r, ?_, ?_, hds, hne, ha⟩
        · rw [List.append_assoc, ← ht, List.take_append_drop]
        · intro x hx
          rcases List.mem_append.mp hx with hxx | hxx
          · intro hxeq
            subst hxeq
            have h3 : Char.toLower '#' ∈ v := isPrefixCI_mem_take hp _ hxx
            rw [show Char.toLower '#' = '#' from by decide] at h3
            exact hv v (List.mem_cons_self _ _) h3
          · exact hw x hxx
      | none =>
        rw [hh] at h
        exact ih (fun u hu => hv u (List.mem_cons_of_mem _ hu)) h
    · rw [if_neg hp] at h
      exact ih (fun u hu => hv u (List.mem_cons_of_mem _ hu)) h

/-- Helper: decomposition of a successful leftmost match. -/
theorem issueMatchHere_some {s ds a : List Char}
    (h : issueMatchHere s = some (ds, a)) :
    ∃ skip r, s = skip ++ '#' :: r ∧ (∀ c ∈ skip, c ≠ '#') ∧
      ds = r.takeWhile Char.isDigit ∧ ds ≠ [] ∧ a = r.drop ds.length :=
  tryVerbs_some verbAlts_no_hash h

/-- Helper: a successful match consumes at least one character. -/
theorem issueMatchHere_shrink {s ds a : List Char}
    (h : issueMatchHere s = some (ds, a)) : a.length < s.length := by
  obtain ⟨skip, r, hsplit, -, -, -, ha⟩ := issueMatchHere_some h
  have h1 : a.length ≤ r.length := by
    rw [ha, List.length_drop]
    omega
  have h2 : s.length = skip.length + (r.length + 1) := by
    rw [hsplit, List.length_append, List.length_cons]
  omega

/-- Helper: when no match starts at a hash, no digit follows it. -/
theorem issueMatchHere_none_hash {rest : List Char}
    (h : issueMatchHere ('#' :: rest) = none) :
    rest.takeWhile Char.isDigit = [] := by
  have heq : issueMatchHere ('#' :: rest) = hashDigits ('#' :: rest) := rfl
  rw [heq] at h
  by_cases hds : (rest.takeWhile Char.isDigit).isEmpty
  · exact List.isEmpty_iff.mp hds
  · exfalso
    have hws : ('#' :: rest).dropWhile isWS = '#' :: rest :=
      List.dropWhile_cons_of_neg (by decide)
    unfold hashDigits at h
    rw [hws] at h
    simp only [if_pos rfl, if_neg hds] at h
    exact Option.noConfusion h

/-- Helper: the fuel of the findall scan is irrelevant once it covers the
input length. -/
theorem issueFindallAux_congr :
    ∀ (f1 f2 : ℕ) (s : List Char), s.length ≤ f1 → s.length ≤ f2 →
      issueFindallAux f1 s = issueFindallAux f2 s := by
  intro f1
  induction f1 with
  | zero =>
    intro f2 s hs1 _
    have : s = [] := List.length_eq_zero.mp (Nat.le_zero.mp hs1)
    subst this
    cases f2 <;> rfl
  | succ f1 ih =>
    intro f2 s hs1 hs2
    cases s with
    | nil => cases f2 <;> rfl
    | cons c rest =>
      rw [List.length_cons] at hs1 hs2
      cases f2 with
      | zero => omega
      | succ f2 =>
        cases hm : issueMatchHere (c :: rest) with
        | some p =>
          obtain ⟨ds, a⟩ := p
          have hlt : a.length < rest.length + 1 := issueMatchHere_shrink hm
          simp only [issueFindallAux, hm]
          rw [ih f2 a (by omega) (by omega)]
        | none =>
          simp only [issueFindallAux, hm]
          exact ih f2 rest (by omega) (by omega)

/-- Helper: the fuel of the specification scan is irrelevant once it covers
the input length. -/
theorem specRefsAux_congr :
    ∀ (f1 f2 : ℕ) (s : List Char), s.length ≤ f1 → s.length ≤ f2 →
      specRefsAux f1 s = specRefsAux f2 s := by
  intro f1
  induction f1 with
  | zero =>
    intro f2 s hs1 _
    have : s = [] := List.length_eq_zero.mp (Nat.le_zero.mp hs1)
    subst this
    cases f2 <;> rfl
  | succ f1 ih =>
    intro f2 s hs1 hs2
    cases s with
    | nil => cases f2 <;> rfl
    | cons c rest =>
      rw [List.length_cons] at hs1 hs2
      cases f2 with
      | zero => omega
      | succ f2 =>
        by_cases hc : c = '#'
        · subst hc
          by_cases hds : (rest.takeWhile Char.isDigit).isEmpty
          · simp only [specRefsAux, if_pos rfl, hds, if_pos]
            exact ih f2 rest (by omega) (by omega)
          · have hlen : (rest.drop (rest.takeWhile Char.isDigit).length).length ≤
                rest.length := by
              rw [List.length_drop]; omega
            simp only [specRefsAux, if_pos rfl, hds, if_neg, Bool.false_eq_true,
              not_false_iff]
            rw [ih f2 _ (by omega) (by omega), if_pos trivial, if_pos trivial]
        · simp only [specRefsAux, if_neg hc]
          exact ih f2 rest (by omega) (by omega)

/-- Helper: the specification scan skips a hash-free prefix. -/
theorem specRefsAux_append {pre : List Char} :
    ∀ (f : ℕ) (l : List Char), (∀ c ∈ pre, c ≠ '#') → pre.length ≤ f →
      specRefsAux f (pre ++ l) = specRefsAux (f - pre.length) l := by
  induction pre with
  | nil => intro f l _ _; simp
  | cons c pre ih =>
    intro f l hpre hf
    rw [List.length_cons] at hf
    cases f with
    | zero => omega
    | succ f =>
      have hc : c ≠ '#' := hpre c (List.mem_cons_self _ _)
      show specRefsAux (f + 1) (c :: (pre ++ l)) = _
      simp only [specRefsAux, if_neg hc]
      rw [ih f l (fun x hx => hpre x (List.mem_cons_of_mem _ hx)) (by omega)]
      congr 1
      rw [List.length_cons]
      omega

/-- Helper: the findall scan and the specification scan agree at full
fuel. -/
theorem findall_spec_aux :
    ∀ (n : ℕ) (s : List Char), s.length ≤ n →
      issueFindallAux s.length s = specRefsAux s.length s := by
  intro n
  induction n with
  | zero =>
    intro s hs
    have : s = [] := List.length_eq_zero.mp (Nat.le_zero.mp hs)
    subst this
    rfl
  | succ n ih =>
    intro s hs
    cases s with
    | nil => rfl
    | cons c rest =>
      rw [List.length_cons] at hs
      simp only [List.length_cons]
      cases hm : issueMatchHere (c :: rest) with
      | some p =>
        obtain ⟨ds, a⟩ := p
        obtain ⟨skip, r, hsplit, hskip, hds, hne, ha⟩ := issueMatchHere_some hm
        have hlt : a.length < rest.length + 1 := issueMatchHere_shrink hm
        have hL : issueFindallAux (rest.length + 1) (c :: rest) =
            digitsToNat ds :: issueFindallAux rest.length a := by
          simp only [issueFindallAux, hm]
        have hL2 : issueFindallAux rest.length a = issueFindallAux a.length a :=
          issueFindallAux_congr _ _ a (by omega) (le_refl _)
        have hIH : issueFindallAux a.length a = specRefsAux a.length a :=
          ih a (by omega)
        have hlenr : (c :: rest).length = skip.length + (r.length + 1) := by
          rw [hsplit, List.length_append, List.length_cons]
        have hR : specRefsAux (rest.length + 1) (c :: rest) =
            specRefsAux (r.length + 1) ('#' :: r) := by
          conv =>
            lhs
            rw [show (rest.length + 1 : ℕ) = (c :: rest).length from rfl, hsplit]
          rw [specRefsAux_append _ _ hskip (by rw [← hsplit]; omega)]
          congr 1
          rw [← hsplit]
          omega
        have hdse : (r.takeWhile Char.isDigit).isEmpty = false := by
          rw [← hds]
          cases ds with
          | nil => exact absurd rfl hne
          | cons x xs => rfl
        have hR2 : specRefsAux (r.length + 1) ('#' :: r) =
            digitsToNat (r.takeWhile Char.isDigit) ::
              specRefsAux r.length (r.drop (r.takeWhile Char.isDigit).length) := by
          simp only [specRefsAux, if_pos rfl, hdse, Bool.false_eq_true, not_false_iff,
            if_neg]
          rw [if_pos trivial]
        have hR3 : specRefsAux r.length (r.drop (r.takeWhile Char.isDigit).length) =
            specRefsAux a.length a := by
          rw [← hds, ← ha]
          exact specRefsAux_congr _ _ a (by rw [ha, List.length_drop]; omega) (le_refl _)
        rw [hL, hL2, hIH, hR, hR2, hR3, ← hds]
      | none =>
        have hL : issueFindallAux (rest.length + 1) (c :: rest) =
            issueFindallAux rest.length rest := by
          simp only [issueFindallAux, hm]
        have hIH : issueFindallAux rest.length rest = specRefsAux rest.length rest :=
          ih rest (by omega)
        by_cases hc : c = '#'
        · subst hc
          have hds : rest.takeWhile Char.isDigit = [] := issueMatchHere_none_hash hm
          have hR : specRefsAux (rest.length + 1) ('#' :: rest) =
              specRefsAux rest.length rest := by
            simp only [specRefsAux, if_pos rfl, hds, List.isEmpty_nil, if_pos]
          rw [hL, hIH, hR]
        · have hR : specRefsAux (rest.length + 1) (c :: rest) =
              specRefsAux rest.length rest := by
            simp only [specRefsAux, if_neg hc]
          rw [hL, hIH, hR]

/-- C9: `extract_issue_references` returns exactly the integers of all
`#<digits>` occurrences anywhere in the message (not only the first line),
in order of appearance with duplicates preserved; no closing verb is
required, and the empty message yields the empty list. -/
theorem c9_issue_references (msg : List Char) :
    extract_issue_references msg = specIssueRefs msg :=
  findall_spec_aux msg.length msg (le_refl _)

end GithubPM
